import Mathlib

/-!
# The 9p tunnel of `communication_p9.c`

A shallow embedding of `src/runtime/init-container/src/communication_p9.c`.

* The kernel is an explicit state `Os`.  Every descriptor has a read side
  (`Source`: the bytes it will deliver and the outcomes of the coming `read`
  calls) and a write side (`Sink`: the outcomes of the coming `write` calls and
  the bytes written so far).  Once a schedule is used up a call transfers
  everything that was asked for and is there, so a `read` on a drained source
  returns 0.
* The process globals are `Globals`; only `do_mount_p9` assigns to one of them.
* Bytes are natural numbers (below 256 on the wire); C integers are `Int`/`Nat`
  with the wrap-around written out.  The host is little-endian.
* The `while` loops take a fuel argument and return `none` when it runs out.
* Indexing `g_p9_socket_fds` outside its `MAX_P9_VOLUMES` rows is undefined in
  C; the embedding stops there with `Exit.index_fault`.
* `malloc` in `tunnel_from_p9_virtio_to_sock` and `snprintf` in `do_mount_p9`
  are taken to succeed; output to `stderr`/`stdout` and `sleep` are left out.
-/

namespace P9

/-! ## Constants -/

def MAX_P9_VOLUMES : Nat := 100

def MAX_PACKET_SIZE : Nat := 16384

def EINTR : Nat := 4

/-- Outcome the kernel gives to one `read`/`recv`/`write` call. -/
inductive Sys where
  /-- The call transfers at most `k` bytes (fewer when fewer were asked for or are there). -/
  | xfer (k : Nat)
  /-- The call returns -1 and sets `errno`. -/
  | fail (errno : Nat)
  deriving DecidableEq, Repr

/-- Read side of a descriptor. -/
structure Source where
  data : List Nat
  sched : List Sys

/-- Write side of a descriptor. -/
structure Sink where
  sched : List Sys
  data : List Nat

/-- One call of `mount(2)`. -/
structure MountCall where
  source : String
  target : String
  fstype : String
  flags : Nat
  opts : String
  deriving DecidableEq, Repr

structure Os where
  rd : Nat → Source
  wr : Nat → Sink
  errno : Nat
  mounts : List MountCall

def Os.setRd (os : Os) (fd : Nat) (s : Source) : Os :=
  { os with rd := fun x => if x = fd then s else os.rd x }

def Os.setWr (os : Os) (fd : Nat) (s : Sink) : Os :=
  { os with wr := fun x => if x = fd then s else os.wr x }

/-- Result of one system call: the returned value, the bytes it stored in the
caller's buffer, and the kernel state after it. -/
structure SysRet where
  ret : Int
  got : List Nat
  os : Os

/-- The call `read(fd, buf, size)`, also `recv(fd, buf, size, 0)`. -/
def sys_read (os : Os) (fd size : Nat) : SysRet :=
  match (os.rd fd).sched with
  | [] =>
    ⟨((os.rd fd).data.take size).length, (os.rd fd).data.take size,
      os.setRd fd ⟨(os.rd fd).data.drop size, []⟩⟩
  | Sys.xfer k :: rest =>
    ⟨((os.rd fd).data.take (min k size)).length, (os.rd fd).data.take (min k size),
      os.setRd fd ⟨(os.rd fd).data.drop (min k size), rest⟩⟩
  | Sys.fail e :: rest =>
    ⟨-1, [], { os.setRd fd ⟨(os.rd fd).data, rest⟩ with errno := e }⟩

/-- The call `write(fd, buf, size)`; `buf` lists the bytes at the pointer. -/
def sys_write (os : Os) (fd : Nat) (buf : List Nat) (size : Nat) : SysRet :=
  match (os.wr fd).sched with
  | [] =>
    ⟨size, [], os.setWr fd ⟨[], (os.wr fd).data ++ buf.take size⟩⟩
  | Sys.xfer k :: rest =>
    ⟨(min k size : Nat), [], os.setWr fd ⟨rest, (os.wr fd).data ++ buf.take (min k size)⟩⟩
  | Sys.fail e :: rest =>
    ⟨-1, [], { os.setWr fd ⟨rest, (os.wr fd).data⟩ with errno := e }⟩

/-! ## Machine integers -/

/-- Value of a C `int` after an arithmetic result `x` is stored in it. -/
def wrap32 (x : Int) : Int := (x + 2147483648) % 4294967296 - 2147483648

/-- The first `n` bytes of the little-endian object representation of `v`. -/
def le_bytes : Nat → Nat → List Nat
  | 0, _ => []
  | n + 1, v => v % 256 :: le_bytes n (v / 256)

/-- The `uint16_t` whose object representation starts `bs`. -/
def le16 (bs : List Nat) : Nat := bs.getD 0 0 % 256 + 256 * (bs.getD 1 0 % 256)

/-! ## Framed I/O primitives -/

/-- The loop of `read_exact`; `buf` lists the bytes stored so far. -/
def read_exact_loop : Nat → Os → Nat → Nat → Int → List Nat → Option (Int × List Nat × Os)
  | 0, _, _, _, _, _ => none
  | fuel + 1, os, fd, size, bytes_read, buf =>
    -- while (size)
    if size = 0 then some (bytes_read, buf, os)
    else
      -- ssize_t ret = read(fd, buf, size);
      let r := sys_read os fd size
      -- if (ret == 0) return 0;
      if r.ret = 0 then some (0, buf ++ r.got, r.os)
      else if r.ret < 0 then
        -- if (errno == EINTR) continue; return ret;
        if r.os.errno = EINTR then read_exact_loop fuel r.os fd size bytes_read buf
        else some (r.ret, buf, r.os)
      else
        -- bytes_read += ret; buf += ret; size -= ret;
        read_exact_loop fuel r.os fd (size - r.ret.toNat) (wrap32 (bytes_read + r.ret))
          (buf ++ r.got)

/-- The function `read_exact(fd, buf, size)`: the returned `int`, the bytes
stored at `buf`, the kernel state afterwards. -/
def read_exact (fuel : Nat) (os : Os) (fd size : Nat) : Option (Int × List Nat × Os) :=
  read_exact_loop fuel os fd size 0 []

/-- The loop of `write_exact`; `buf` lists the bytes from the current pointer on. -/
def write_exact_loop : Nat → Os → Nat → List Nat → Nat → Int → Option (Int × Os)
  | 0, _, _, _, _, _ => none
  | fuel + 1, os, fd, buf, size, bytes_written =>
    -- while (size)
    if size = 0 then some (bytes_written, os)
    else
      -- ssize_t ret = write(fd, buf, size);
      let r := sys_write os fd buf size
      -- if (ret == 0) { puts(...); sleep(1); continue; }
      if r.ret = 0 then write_exact_loop fuel r.os fd buf size bytes_written
      else if r.ret < 0 then
        -- if (errno == EINTR) continue; return -1;
        if r.os.errno = EINTR then write_exact_loop fuel r.os fd buf size bytes_written
        else some (-1, r.os)
      else
        -- bytes_written += ret; buf += ret; size -= ret;
        write_exact_loop fuel r.os fd (buf.drop r.ret.toNat) (size - r.ret.toNat)
          (wrap32 (bytes_written + r.ret))

/-- The function `write_exact(fd, buf, size)`: the returned `int` and the kernel
state afterwards. -/
def write_exact (fuel : Nat) (os : Os) (fd : Nat) (buf : List Nat) (size : Nat) :
    Option (Int × Os) :=
  write_exact_loop fuel os fd buf size 0

/-! ## Process globals -/

structure Globals where
  g_p9_fd : Nat
  g_p9_current_channel : Int
  /-- Row `i < MAX_P9_VOLUMES` of `g_p9_socket_fds`. -/
  g_p9_socket_fds : Nat → Nat × Nat

/-- How a function that indexes `g_p9_socket_fds` ends. -/
inductive Exit (α : Type) where
  | ret (v : α)
  /-- The table was indexed with `i ≥ MAX_P9_VOLUMES`. -/
  | index_fault (i : Nat)
  deriving DecidableEq, Repr

/-! ## Inbound demultiplexer -/

/-- The `while (true)` loop of `tunnel_from_p9_virtio_to_sock`. -/
def tunnel_loop (g : Globals) : Nat → Os → Option (Exit Int × Os)
  | 0, _ => none
  | fuel + 1, os =>
    -- bytes_read = read_exact(g_p9_fd, &channel, sizeof(channel));
    match read_exact fuel os g.g_p9_fd 1 with
    | none => none
    | some (bytes_read, channel_buf, os1) =>
      -- if (bytes_read == 0) goto success;
      if bytes_read = 0 then some (Exit.ret 0, os1)
      -- if (bytes_read != sizeof(channel)) goto error;
      else if bytes_read ≠ 1 then some (Exit.ret (-1), os1)
      else
        let channel := channel_buf.getD 0 0 % 256
        -- bytes_read = read_exact(g_p9_fd, &packet_size, sizeof(packet_size));
        match read_exact fuel os1 g.g_p9_fd 2 with
        | none => none
        | some (bytes_read, size_buf, os2) =>
          -- if (bytes_read != sizeof(packet_size)) goto error;
          if bytes_read ≠ 2 then some (Exit.ret (-1), os2)
          else
            let packet_size := le16 size_buf
            -- if (packet_size > MAX_PACKET_SIZE) goto error;
            if packet_size > MAX_PACKET_SIZE then some (Exit.ret (-1), os2)
            else
              -- bytes_read = read_exact(g_p9_fd, buffer, packet_size);
              match read_exact fuel os2 g.g_p9_fd packet_size with
              | none => none
              | some (bytes_read, buffer, os3) =>
                -- if (bytes_read != packet_size) goto error;
                if bytes_read ≠ (packet_size : Int) then some (Exit.ret (-1), os3)
                -- if (bytes_read == -1) goto error;
                else if bytes_read = -1 then some (Exit.ret (-1), os3)
                -- write_exact(g_p9_socket_fds[channel][1], buffer, bytes_read)
                else if channel < MAX_P9_VOLUMES then
                  match write_exact fuel os3 (g.g_p9_socket_fds channel).2 buffer
                      bytes_read.toNat with
                  | none => none
                  | some (written, os4) =>
                    if written = -1 then some (Exit.ret (-1), os4)
                    else tunnel_loop g fuel os4
                else some (Exit.index_fault channel, os3)

/-- Thread body; `data` is the pointer argument (0 is `NULL`), the result is the
returned pointer value: 0 after `success:`, -1 after `error:`. -/
def tunnel_from_p9_virtio_to_sock (g : Globals) (fuel : Nat) (os : Os) (data : Nat) :
    Option (Exit Int × Os) :=
  -- if (data != NULL) goto error;
  if data ≠ 0 then some (Exit.ret (-1), os)
  else tunnel_loop g fuel os

/-! ## Outbound multiplexer -/

/-- The handler of one ready channel; the caller passes a `channel` from 0 to 99. -/
def handle_data_on_channel (g : Globals) (fuel : Nat) (os : Os) (channel buffer_size : Nat) :
    Option (Exit Unit × Os) :=
  if channel < MAX_P9_VOLUMES then
    -- ssize_t bytes_read = recv(g_p9_socket_fds[channel][1], buffer, buffer_size, 0);
    let r := sys_read os (g.g_p9_socket_fds channel).2 buffer_size
    -- if (bytes_read == 0) goto error;
    if r.ret = 0 then some (Exit.ret (), r.os)
    -- if (bytes_read == -1) goto error;
    else if r.ret = -1 then some (Exit.ret (), r.os)
    else
      -- if (write_exact(g_p9_fd, &channel, 1) == -1) goto error;
      match write_exact fuel r.os g.g_p9_fd (le_bytes 4 channel) 1 with
      | none => none
      | some (w1, os1) =>
        if w1 = -1 then some (Exit.ret (), os1)
        else
          -- uint16_t bytes_read_to_send = (uint16_t)bytes_read;
          -- if (write_exact(g_p9_fd, &bytes_read_to_send, 2) == -1) goto error;
          match write_exact fuel os1 g.g_p9_fd (le_bytes 2 (r.ret.toNat % 65536)) 2 with
          | none => none
          | some (w2, os2) =>
            if w2 = -1 then some (Exit.ret (), os2)
            else
              -- if (write_exact(g_p9_fd, buffer, bytes_read) == -1) goto error;
              match write_exact fuel os2 g.g_p9_fd r.got r.ret.toNat with
              | none => none
              | some (_, os3) => some (Exit.ret (), os3)
  else some (Exit.index_fault channel, os)

/-- Value of a `uint32_t` after `x` is stored in it. -/
def to_u32 (x : Int) : Nat := (x % 4294967296).toNat

/-- Value of a `uint8_t` after `x` is stored in it. -/
def to_u8 (x : Int) : Nat := (x % 256).toNat

/-- The option string `snprintf` builds for the descriptor `fd`. -/
def mount_cmd (fd : Nat) : String :=
  "trans=fd,rfdno=" ++ toString fd ++ ",wfdno=" ++ toString fd ++ ",version=9p2000.L"

/-- Mounts a volume; `mount_errno` is `none` when `mount(2)` succeeds and the
`errno` it sets otherwise.  Returns the `uint32_t` result, the globals and the
kernel state afterwards. -/
def do_mount_p9 (g : Globals) (os : Os) (tag path : String) (mount_errno : Option Nat) :
    Nat × Globals × Os :=
  -- uint8_t channel = g_p9_current_channel++;
  let channel := to_u8 g.g_p9_current_channel
  let g1 : Globals := { g with g_p9_current_channel := wrap32 (g.g_p9_current_channel + 1) }
  -- if (channel >= MAX_P9_VOLUMES) return -1;
  if channel ≥ MAX_P9_VOLUMES then (to_u32 (-1), g1, os)
  else
    -- int mount_socket_fd = g_p9_socket_fds[channel][0];
    let mount_socket_fd := (g1.g_p9_socket_fds channel).1
    -- if (mount(tag, path, "9p", 0, mount_cmd) < 0) return errno;
    let os1 : Os :=
      { os with mounts := os.mounts ++ [⟨tag, path, "9p", 0, mount_cmd mount_socket_fd⟩] }
    match mount_errno with
    | some e => (to_u32 e, g1, { os1 with errno := e })
    | none => (0, g1, os1)

/-- A run of `do_mount_p9` calls, one per `(tag, path, mount_errno)`. -/
def do_mounts : List (String × String × Option Nat) → Globals × Os → Globals × Os
  | [], s => s
  | (tag, path, e) :: more, s => do_mounts more (do_mount_p9 s.1 s.2 tag path e).2

/-! ## Vocabulary of the properties -/

/-- No scheduled outcome is a failure with an `errno` other than `EINTR`. -/
def no_hard_error (s : List Sys) : Prop := ∀ e, Sys.fail e ∈ s → e = EINTR

/-- No scheduled `read` returns 0 while bytes are left in the source. -/
def no_early_eof (s : List Sys) : Prop := Sys.xfer 0 ∉ s

/-- A frame of the wire format: channel and payload (the length is the payload's). -/
structure Frame where
  channel : Nat
  payload : List Nat

/-- Wire format of the specification: one channel byte, the length as two bytes
in little-endian order, the payload. -/
def encode_frame (f : Frame) : List Nat :=
  f.channel :: f.payload.length % 256 :: f.payload.length / 256 :: f.payload

def encode_frames : List Frame → List Nat
  | [] => []
  | f :: fs => encode_frame f ++ encode_frames fs

def valid_frame (f : Frame) : Prop :=
  f.channel < MAX_P9_VOLUMES ∧ f.payload.length ≤ MAX_PACKET_SIZE

/-- The payload bytes of `fs`, in order, whose channel has `fd` as internal endpoint. -/
def routed (g : Globals) (fd : Nat) : List Frame → List Nat
  | [] => []
  | f :: fs => (if (g.g_p9_socket_fds f.channel).2 = fd then f.payload else []) ++ routed g fd fs

/-- A kernel in which every descriptor is drained and every call goes through. -/
def os_idle : Os := ⟨fun _ => ⟨[], []⟩, fun _ => ⟨[], []⟩, 0, []⟩

/-- Globals after start-up: the transport is descriptor 3, channel `i` owns the
socket pair `(2 i + 10, 2 i + 11)`, no channel is allocated yet. -/
def g_boot : Globals := ⟨3, 0, fun i => (2 * i + 10, 2 * i + 11)⟩

/-- Globals and kernel after 256 calls of `do_mount_p9` since start-up. -/
def after_256_mounts : Globals × Os :=
  do_mounts (List.replicate 256 ("vol", "/mnt", none)) (g_boot, os_idle)

/-! ## Properties of the kernel model -/

theorem sys_read_spec (os : Os) (fd size : Nat) :
    (sys_read os fd size).os.wr = os.wr ∧
    (sys_read os fd size).os.mounts = os.mounts ∧
    (∀ x, x ≠ fd → (sys_read os fd size).os.rd x = os.rd x) ∧
    (sys_read os fd size).got ++ ((sys_read os fd size).os.rd fd).data = (os.rd fd).data ∧
    ((sys_read os fd size).os.rd fd).sched = (os.rd fd).sched.tail ∧
    (((sys_read os fd size).ret = (sys_read os fd size).got.length ∧
        (sys_read os fd size).got.length ≤ size ∧
        (sys_read os fd size).got = (os.rd fd).data.take (sys_read os fd size).got.length ∧
        (sys_read os fd size).os.errno = os.errno ∧
        ((sys_read os fd size).got.length = 0 → 0 < size →
          Sys.xfer 0 ∈ (os.rd fd).sched ∨ (os.rd fd).data = [])) ∨
      ((sys_read os fd size).ret = -1 ∧ (sys_read os fd size).got = [] ∧
        Sys.fail (sys_read os fd size).os.errno ∈ (os.rd fd).sched ∧
        ((sys_read os fd size).os.rd fd).sched.length + 1 = (os.rd fd).sched.length)) := by
  unfold sys_read
  cases hs : (os.rd fd).sched with
  | nil =>
    simp only [Os.setRd, hs]
    refine ⟨trivial, trivial, ?_, ?_, ?_, ?_⟩
    · intro x hx; simp [hx]
    · simp
    · simp
    · left
      refine ⟨trivial, ?_, ?_, trivial, ?_⟩
      · simp
      · simp
      · intro h0 hpos
        right
        simp only [List.length_take] at h0
        have : (os.rd fd).data.length = 0 := by omega
        exact List.length_eq_zero.mp this
  | cons ev rest =>
    cases ev with
    | xfer k =>
      simp only [Os.setRd, hs]
      refine ⟨trivial, trivial, ?_, ?_, ?_, ?_⟩
      · intro x hx; simp [hx]
      · simp
      · simp
      · left
        refine ⟨trivial, ?_, ?_, trivial, ?_⟩
        · simp only [List.length_take]; omega
        · simp
        · intro h0 hpos
          simp only [List.length_take] at h0
          by_cases hk : k = 0
          · left; simp [hk]
          · right
            have : (os.rd fd).data.length = 0 := by omega
            exact List.length_eq_zero.mp this
    | fail e =>
      simp only [Os.setRd, hs]
      refine ⟨trivial, trivial, ?_, ?_, ?_, ?_⟩
      · intro x hx; simp [hx]
      · simp
      · simp
      · right
        simp

theorem wrap32_id (x : Int) (h0 : 0 ≤ x) (h1 : x < 2147483648) : wrap32 x = x := by
  unfold wrap32
  omega

/-- Specification of the loop of `read_exact`: with enough fuel it returns, it
touches only the read side of `fd`, the bytes it stored followed by the bytes
left in the source are the bytes that were in the source, and it ends in one of
three ways: all `size` bytes stored, a `read` that returned 0, or a `read` that
failed with an `errno` other than `EINTR`. -/
theorem read_exact_loop_spec (fd : Nat) :
    ∀ (fuel : Nat) (os : Os) (size : Nat) (br : Int) (buf : List Nat),
      (os.rd fd).sched.length + size + 1 ≤ fuel → 0 ≤ br → br + size < 2147483648 →
      ∃ r got os', read_exact_loop fuel os fd size br buf = some (r, buf ++ got, os') ∧
        os'.wr = os.wr ∧ os'.mounts = os.mounts ∧ (∀ x, x ≠ fd → os'.rd x = os.rd x) ∧
        got ++ (os'.rd fd).data = (os.rd fd).data ∧
        (os'.rd fd).sched <:+ (os.rd fd).sched ∧
        ((got.length = size ∧ r = br + size) ∨
         (r = 0 ∧ got.length < size ∧
            (Sys.xfer 0 ∈ (os.rd fd).sched ∨ (os.rd fd).data.length < size)) ∨
         (r = -1 ∧ got.length < size ∧
            ∃ e, e ≠ EINTR ∧ Sys.fail e ∈ (os.rd fd).sched ∧ os'.errno = e)) := by
  intro fuel
  induction fuel with
  | zero => intro os size br buf h; omega
  | succ fuel ih =>
    intro os size br buf hfuel hbr hsz
    by_cases hzero : size = 0
    · subst hzero
      refine ⟨br, [], os, ?_, rfl, rfl, fun _ _ => rfl, by simp, List.suffix_refl _, ?_⟩
      · simp [read_exact_loop]
      · left; simp
    · obtain ⟨hwr, hm, hrd, hdata, hsched, hcase⟩ := sys_read_spec os fd size
      rw [read_exact_loop]
      simp only [hzero, if_false]
      have htail : ((sys_read os fd size).os.rd fd).sched <:+ (os.rd fd).sched := by
        rw [hsched]; exact List.tail_suffix _
      have hlen : ((sys_read os fd size).os.rd fd).sched.length ≤ (os.rd fd).sched.length :=
        htail.length_le
      rcases hcase with ⟨hret, hle, _, herrno, hz⟩ | ⟨hret, hgot, hmem, hshort⟩
      · by_cases h0 : (sys_read os fd size).got.length = 0
        · have hr0 : (sys_read os fd size).ret = 0 := by rw [hret, h0]; rfl
          refine ⟨0, (sys_read os fd size).got, (sys_read os fd size).os, ?_, hwr, hm, hrd,
            hdata, htail, ?_⟩
          · simp [hr0]
          · right; left
            refine ⟨rfl, by omega, ?_⟩
            rcases hz h0 (by omega) with h | h
            · exact Or.inl h
            · right; rw [h]; simp; omega
        · have hpos : 0 < (sys_read os fd size).got.length := Nat.pos_of_ne_zero h0
          have hr1 : ¬ (sys_read os fd size).ret = 0 := by rw [hret]; omega
          have hr2 : ¬ (sys_read os fd size).ret < 0 := by rw [hret]; omega
          simp only [hr1, hr2, if_false]
          have hnat : (sys_read os fd size).ret.toNat = (sys_read os fd size).got.length := by
            rw [hret]; simp
          rw [hnat, hret]
          have hw : wrap32 (br + ((sys_read os fd size).got.length : Int)) =
              br + ((sys_read os fd size).got.length : Int) := by
            apply wrap32_id <;> omega
          rw [hw]
          obtain ⟨r, got, os', hrun, hwr', hm', hrd', hdata', hsuf', hcase'⟩ :=
            ih (sys_read os fd size).os (size - (sys_read os fd size).got.length)
              (br + ((sys_read os fd size).got.length : Int))
              (buf ++ (sys_read os fd size).got) (by omega) (by omega) (by omega)
          refine ⟨r, (sys_read os fd size).got ++ got, os', ?_, hwr'.trans hwr, hm'.trans hm,
            fun x hx => (hrd' x hx).trans (hrd x hx), ?_, hsuf'.trans htail, ?_⟩
          · rw [hrun, List.append_assoc]
          · rw [List.append_assoc, hdata', hdata]
          · have hdl : (os.rd fd).data.length =
                (sys_read os fd size).got.length +
                  ((sys_read os fd size).os.rd fd).data.length := by
              rw [← hdata]; simp
            rcases hcase' with ⟨h1, h2⟩ | ⟨h1, h2, h3⟩ | ⟨h1, h2, e, he, hmem, herr⟩
            · left
              refine ⟨by simp; omega, ?_⟩
              rw [h2]; push_cast [Nat.cast_sub hle]; ring
            · right; left
              refine ⟨h1, by simp; omega, ?_⟩
              rcases h3 with h | h
              · exact Or.inl (htail.subset h)
              · right; omega
            · right; right
              exact ⟨h1, by simp; omega, e, he, htail.subset hmem, herr⟩
      · have hr1 : ¬ (sys_read os fd size).ret = 0 := by rw [hret]; omega
        have hr2 : (sys_read os fd size).ret < 0 := by rw [hret]; omega
        simp only [hr1, hr2, if_false, if_true]
        by_cases hint : (sys_read os fd size).os.errno = EINTR
        · simp only [hint, if_true]
          obtain ⟨r, got, os', hrun, hwr', hm', hrd', hdata', hsuf', hcase'⟩ :=
            ih (sys_read os fd size).os size br buf (by omega) hbr hsz
          have hd : ((sys_read os fd size).os.rd fd).data = (os.rd fd).data := by
            rw [← hdata, hgot]; rfl
          refine ⟨r, got, os', hrun, hwr'.trans hwr, hm'.trans hm,
            fun x hx => (hrd' x hx).trans (hrd x hx), by rw [hdata', hd], hsuf'.trans htail, ?_⟩
          rcases hcase' with h | ⟨h1, h2, h3⟩ | ⟨h1, h2, e, he, hmem', herr⟩
          · exact Or.inl h
          · right; left
            refine ⟨h1, h2, ?_⟩
            rcases h3 with h | h
            · exact Or.inl (htail.subset h)
            · right; rw [← hd]; exact h
          · right; right
            exact ⟨h1, h2, e, he, htail.subset hmem', herr⟩
        · simp only [hint, if_false]
          refine ⟨-1, [], (sys_read os fd size).os, ?_, hwr, hm, hrd, ?_, htail, ?_⟩
          · simp [hret]
          · rw [← hdata, hgot]
          · right; right
            exact ⟨rfl, by simp; omega, _, hint, hmem, rfl⟩

theorem sys_write_spec (os : Os) (fd : Nat) (buf : List Nat) (size : Nat) :
    (sys_write os fd buf size).os.rd = os.rd ∧
    (sys_write os fd buf size).os.mounts = os.mounts ∧
    (∀ x, x ≠ fd → (sys_write os fd buf size).os.wr x = os.wr x) ∧
    ((sys_write os fd buf size).os.wr fd).sched = (os.wr fd).sched.tail ∧
    ((∃ n : Nat, (sys_write os fd buf size).ret = n ∧ n ≤ size ∧
        ((sys_write os fd buf size).os.wr fd).data = (os.wr fd).data ++ buf.take n ∧
        (sys_write os fd buf size).os.errno = os.errno ∧
        (n = 0 → 0 < size →
          ((sys_write os fd buf size).os.wr fd).sched.length + 1 = (os.wr fd).sched.length)) ∨
      ((sys_write os fd buf size).ret = -1 ∧
        ((sys_write os fd buf size).os.wr fd).data = (os.wr fd).data ∧
        Sys.fail (sys_write os fd buf size).os.errno ∈ (os.wr fd).sched ∧
        ((sys_write os fd buf size).os.wr fd).sched.length + 1 = (os.wr fd).sched.length)) := by
  unfold sys_write
  cases hs : (os.wr fd).sched with
  | nil =>
    simp only [Os.setWr, hs]
    refine ⟨trivial, trivial, ?_, ?_, ?_⟩
    · intro x hx; simp [hx]
    · simp
    · left
      refine ⟨size, rfl, le_refl _, by simp, trivial, ?_⟩
      intro h0 hpos; omega
  | cons ev rest =>
    cases ev with
    | xfer k =>
      simp only [Os.setWr, hs]
      refine ⟨trivial, trivial, ?_, ?_, ?_⟩
      · intro x hx; simp [hx]
      · simp
      · left
        refine ⟨min k size, rfl, Nat.min_le_right _ _, by simp, trivial, ?_⟩
        intro h0 hpos; simp
    | fail e =>
      simp only [Os.setWr, hs]
      refine ⟨trivial, trivial, ?_, ?_, ?_⟩
      · intro x hx; simp [hx]
      · simp
      · right
        simp

/-- Specification of the loop of `write_exact`: with enough fuel it returns, it
touches only the write side of `fd`, what it appended to the sink is a prefix of
the buffer, and it ends either with all `size` bytes appended or with -1 after a
`write` that failed with an `errno` other than `EINTR`. -/
theorem write_exact_loop_spec (fd : Nat) :
    ∀ (fuel : Nat) (os : Os) (buf : List Nat) (size : Nat) (bw : Int),
      (os.wr fd).sched.length + size + 1 ≤ fuel → 0 ≤ bw → bw + size < 2147483648 →
      ∃ r n os', write_exact_loop fuel os fd buf size bw = some (r, os') ∧
        os'.rd = os.rd ∧ os'.mounts = os.mounts ∧ (∀ x, x ≠ fd → os'.wr x = os.wr x) ∧
        n ≤ size ∧
        (os'.wr fd).data = (os.wr fd).data ++ buf.take n ∧
        (os'.wr fd).sched <:+ (os.wr fd).sched ∧
        ((n = size ∧ r = bw + size) ∨
         (r = -1 ∧ n < size ∧
            ∃ e, e ≠ EINTR ∧ Sys.fail e ∈ (os.wr fd).sched ∧ os'.errno = e)) := by
  intro fuel
  induction fuel with
  | zero => intro os buf size bw h; omega
  | succ fuel ih =>
    intro os buf size bw hfuel hbw hsz
    by_cases hzero : size = 0
    · subst hzero
      refine ⟨bw, 0, os, ?_, rfl, rfl, fun _ _ => rfl, le_refl _, by simp, List.suffix_refl _, ?_⟩
      · simp [write_exact_loop]
      · left; simp
    · obtain ⟨hrd, hm, hwr, hsched, hcase⟩ := sys_write_spec os fd buf size
      rw [write_exact_loop]
      simp only [hzero, if_false]
      have htail : ((sys_write os fd buf size).os.wr fd).sched <:+ (os.wr fd).sched := by
        rw [hsched]; exact List.tail_suffix _
      have hlen : ((sys_write os fd buf size).os.wr fd).sched.length ≤ (os.wr fd).sched.length :=
        htail.length_le
      rcases hcase with ⟨k, hret, hle, hdata, herrno, hz⟩ | ⟨hret, hdata, hmem, hshort⟩
      · by_cases h0 : k = 0
        · have hr0 : (sys_write os fd buf size).ret = 0 := by rw [hret, h0]; rfl
          simp only [hr0, if_true]
          have hsh := hz h0 (by omega)
          obtain ⟨r, n, os', hrun, hrd', hm', hwr', hn, hdata', hsuf', hcase'⟩ :=
            ih (sys_write os fd buf size).os buf size bw (by omega) hbw hsz
          have hd : ((sys_write os fd buf size).os.wr fd).data = (os.wr fd).data := by
            rw [hdata, h0]; simp
          refine ⟨r, n, os', hrun, hrd'.trans hrd, hm'.trans hm,
            fun x hx => (hwr' x hx).trans (hwr x hx), hn, by rw [hdata', hd],
            hsuf'.trans htail, ?_⟩
          rcases hcase' with h | ⟨h1, h2, e, he, hmem', herr⟩
          · exact Or.inl h
          · right
            exact ⟨h1, h2, e, he, htail.subset hmem', herr⟩
        · have hr1 : ¬ (sys_write os fd buf size).ret = 0 := by rw [hret]; omega
          have hr2 : ¬ (sys_write os fd buf size).ret < 0 := by rw [hret]; omega
          simp only [hr1, hr2, if_false]
          have hnat : (sys_write os fd buf size).ret.toNat = k := by rw [hret]; simp
          rw [hnat, hret]
          have hw : wrap32 (bw + (k : Int)) = bw + (k : Int) := by
            apply wrap32_id <;> omega
          rw [hw]
          obtain ⟨r, n, os', hrun, hrd', hm', hwr', hn, hdata', hsuf', hcase'⟩ :=
            ih (sys_write os fd buf size).os (buf.drop k) (size - k) (bw + (k : Int))
              (by omega) (by omega) (by omega)
          refine ⟨r, k + n, os', hrun, hrd'.trans hrd, hm'.trans hm,
            fun x hx => (hwr' x hx).trans (hwr x hx), by omega, ?_, hsuf'.trans htail, ?_⟩
          · rw [hdata', hdata, List.append_assoc, List.take_add]
          · rcases hcase' with ⟨h1, h2⟩ | ⟨h1, h2, e, he, hmem', herr⟩
            · left
              refine ⟨by omega, ?_⟩
              rw [h2]; push_cast [Nat.cast_sub hle]; ring
            · right
              exact ⟨h1, by omega, e, he, htail.subset hmem', herr⟩
      · have hr1 : ¬ (sys_write os fd buf size).ret = 0 := by rw [hret]; omega
        have hr2 : (sys_write os fd buf size).ret < 0 := by rw [hret]; omega
        simp only [hr1, hr2, if_false, if_true]
        by_cases hint : (sys_write os fd buf size).os.errno = EINTR
        · simp only [hint, if_true]
          obtain ⟨r, n, os', hrun, hrd', hm', hwr', hn, hdata', hsuf', hcase'⟩ :=
            ih (sys_write os fd buf size).os buf size bw (by omega) hbw hsz
          refine ⟨r, n, os', hrun, hrd'.trans hrd, hm'.trans hm,
            fun x hx => (hwr' x hx).trans (hwr x hx), hn, by rw [hdata', hdata],
            hsuf'.trans htail, ?_⟩
          rcases hcase' with h | ⟨h1, h2, e, he, hmem', herr⟩
          · exact Or.inl h
          · right
            exact ⟨h1, h2, e, he, htail.subset hmem', herr⟩
        · simp only [hint, if_false]
          refine ⟨-1, 0, (sys_write os fd buf size).os, rfl, hrd, hm, hwr, by omega, ?_, htail, ?_⟩
          · rw [hdata]; simp
          · right
            exact ⟨rfl, by omega, _, hint, hmem, rfl⟩

/-! ## More fuel does not change a result -/

theorem read_exact_loop_mono (fd : Nat) :
    ∀ (n : Nat) (os : Os) (size : Nat) (br : Int) (buf : List Nat) (r : Int × List Nat × Os),
      read_exact_loop n os fd size br buf = some r →
      ∀ m, n ≤ m → read_exact_loop m os fd size br buf = some r := by
  intro n
  induction n with
  | zero => intro os size br buf r h; simp [read_exact_loop] at h
  | succ n ih =>
    intro os size br buf r h m hm
    obtain ⟨m, rfl⟩ : ∃ k, m = k + 1 := ⟨m - 1, by omega⟩
    rw [read_exact_loop] at h ⊢
    dsimp only at h ⊢
    split_ifs at h ⊢ with h1 h2 h3 h4
    · exact h
    · exact h
    · exact ih _ _ _ _ _ h m (by omega)
    · exact h
    · exact ih _ _ _ _ _ h m (by omega)

theorem write_exact_loop_mono (fd : Nat) :
    ∀ (n : Nat) (os : Os) (buf : List Nat) (size : Nat) (bw : Int) (r : Int × Os),
      write_exact_loop n os fd buf size bw = some r →
      ∀ m, n ≤ m → write_exact_loop m os fd buf size bw = some r := by
  intro n
  induction n with
  | zero => intro os buf size bw r h; simp [write_exact_loop] at h
  | succ n ih =>
    intro os buf size bw r h m hm
    obtain ⟨m, rfl⟩ : ∃ k, m = k + 1 := ⟨m - 1, by omega⟩
    rw [write_exact_loop] at h ⊢
    dsimp only at h ⊢
    split_ifs at h ⊢ with h1 h2 h3 h4
    · exact h
    · exact ih _ _ _ _ _ h m (by omega)
    · exact ih _ _ _ _ _ h m (by omega)
    · exact h
    · exact ih _ _ _ _ _ h m (by omega)

/-! ## The primitives on well-behaved descriptors -/

theorem no_hard_error_suffix {s t : List Sys} (h : s <:+ t) (ht : no_hard_error t) :
    no_hard_error s :=
  fun e he => ht e (h.subset he)

theorem no_early_eof_suffix {s t : List Sys} (h : s <:+ t) (ht : no_early_eof t) :
    no_early_eof s :=
  fun he => ht (h.subset he)

theorem read_exact_full (os : Os) (fd size : Nat) (p rest : List Nat)
    (hdata : (os.rd fd).data = p ++ rest) (hp : p.length = size) (hsz : size < 2147483648)
    (h1 : no_hard_error (os.rd fd).sched) (h2 : no_early_eof (os.rd fd).sched) :
    ∃ os', (∀ fuel, (os.rd fd).sched.length + size + 1 ≤ fuel →
        read_exact fuel os fd size = some ((size : Int), p, os')) ∧
      os'.wr = os.wr ∧ os'.mounts = os.mounts ∧ (∀ x, x ≠ fd → os'.rd x = os.rd x) ∧
      (os'.rd fd).data = rest ∧ (os'.rd fd).sched <:+ (os.rd fd).sched := by
  obtain ⟨r, got, os', hrun, hwr, hm, hrd, hd, hsuf, hcase⟩ :=
    read_exact_loop_spec fd _ os size 0 [] (le_refl _) (le_refl _) (by omega)
  rcases hcase with ⟨hl, hr⟩ | ⟨_, hl, h | h⟩ | ⟨_, _, e, he, hmem, _⟩
  · rw [hdata] at hd
    obtain ⟨hgp, hrest⟩ := List.append_inj hd (by omega)
    subst hgp
    refine ⟨os', ?_, hwr, hm, hrd, hrest, hsuf⟩
    intro fuel hf
    have := read_exact_loop_mono fd _ os _ 0 [] _ hrun fuel hf
    simpa [read_exact, hr] using this
  · exact absurd h h2
  · rw [hdata] at h; simp at h; omega
  · exact absurd (h1 e hmem) he

theorem read_exact_eof (os : Os) (fd size : Nat) (hpos : 0 < size)
    (hdata : (os.rd fd).data.length < size) (hsz : size < 2147483648)
    (h1 : no_hard_error (os.rd fd).sched) :
    ∃ got os', (∀ fuel, (os.rd fd).sched.length + size + 1 ≤ fuel →
        read_exact fuel os fd size = some (0, got, os')) ∧
      os'.wr = os.wr ∧ os'.mounts = os.mounts ∧ (∀ x, x ≠ fd → os'.rd x = os.rd x) ∧
      got ++ (os'.rd fd).data = (os.rd fd).data := by
  obtain ⟨r, got, os', hrun, hwr, hm, hrd, hd, hsuf, hcase⟩ :=
    read_exact_loop_spec fd _ os size 0 [] (le_refl _) (le_refl _) (by omega)
  have hgl : got.length ≤ (os.rd fd).data.length := by rw [← hd]; simp
  rcases hcase with ⟨hl, hr⟩ | ⟨hr, hl, _⟩ | ⟨_, _, e, he, hmem, _⟩
  · omega
  · refine ⟨got, os', ?_, hwr, hm, hrd, hd⟩
    intro fuel hf
    have := read_exact_loop_mono fd _ os _ 0 [] _ hrun fuel hf
    simpa [read_exact, hr] using this
  · exact absurd (h1 e hmem) he

theorem write_exact_full (os : Os) (fd : Nat) (buf : List Nat) (size : Nat)
    (hsz : size < 2147483648) (h1 : no_hard_error (os.wr fd).sched) :
    ∃ os', (∀ fuel, (os.wr fd).sched.length + size + 1 ≤ fuel →
        write_exact fuel os fd buf size = some ((size : Int), os')) ∧
      os'.rd = os.rd ∧ os'.mounts = os.mounts ∧ (∀ x, x ≠ fd → os'.wr x = os.wr x) ∧
      (os'.wr fd).data = (os.wr fd).data ++ buf.take size ∧
      (os'.wr fd).sched <:+ (os.wr fd).sched := by
  obtain ⟨r, n, os', hrun, hrd, hm, hwr, hn, hd, hsuf, hcase⟩ :=
    write_exact_loop_spec fd _ os buf size 0 (le_refl _) (le_refl _) (by omega)
  rcases hcase with ⟨hl, hr⟩ | ⟨_, _, e, he, hmem, _⟩
  · subst hl
    refine ⟨os', ?_, hrd, hm, hwr, hd, hsuf⟩
    intro fuel hf
    have := write_exact_loop_mono fd _ os _ _ 0 _ hrun fuel hf
    simpa [write_exact, hr] using this
  · exact absurd (h1 e hmem) he

/-! ## The inbound demultiplexer, one frame at a time -/

theorem le16_pair (n : Nat) (h : n < 65536) : le16 [n % 256, n / 256] = n := by
  simp only [le16, List.getD_cons_zero, List.getD_cons_succ]
  omega

/-- One iteration of the inbound loop on a valid frame: the frame is read off
the transport and its payload is appended to the internal endpoint of its
channel; the loop goes on from there. -/
theorem tunnel_loop_frame (g : Globals) (os : Os) (f : Frame) (tail : List Nat)
    (hv : valid_frame f)
    (hdata : (os.rd g.g_p9_fd).data = encode_frame f ++ tail)
    (h1 : no_hard_error (os.rd g.g_p9_fd).sched) (h2 : no_early_eof (os.rd g.g_p9_fd).sched)
    (hw : no_hard_error (os.wr (g.g_p9_socket_fds f.channel).2).sched) :
    ∃ os4 N, (∀ fuel, N ≤ fuel → tunnel_loop g (fuel + 1) os = tunnel_loop g fuel os4) ∧
      (os4.rd g.g_p9_fd).data = tail ∧
      (os4.rd g.g_p9_fd).sched <:+ (os.rd g.g_p9_fd).sched ∧
      os4.mounts = os.mounts ∧
      (∀ x, x ≠ (g.g_p9_socket_fds f.channel).2 → os4.wr x = os.wr x) ∧
      (os4.wr (g.g_p9_socket_fds f.channel).2).data =
        (os.wr (g.g_p9_socket_fds f.channel).2).data ++ f.payload ∧
      (os4.wr (g.g_p9_socket_fds f.channel).2).sched <:+
        (os.wr (g.g_p9_socket_fds f.channel).2).sched := by
  obtain ⟨hc, hn⟩ := hv
  unfold MAX_P9_VOLUMES at hc
  unfold MAX_PACKET_SIZE at hn
  obtain ⟨os1, hr1, hwr1, hm1, -, hd1, hs1⟩ :=
    read_exact_full os g.g_p9_fd 1 [f.channel]
      (f.payload.length % 256 :: f.payload.length / 256 :: (f.payload ++ tail))
      (by rw [hdata]; simp [encode_frame]) rfl (by omega) h1 h2
  obtain ⟨os2, hr2, hwr2, hm2, -, hd2, hs2⟩ :=
    read_exact_full os1 g.g_p9_fd 2 [f.payload.length % 256, f.payload.length / 256]
      (f.payload ++ tail) (by rw [hd1]; simp) rfl (by omega)
      (no_hard_error_suffix hs1 h1) (no_early_eof_suffix hs1 h2)
  obtain ⟨os3, hr3, hwr3, hm3, -, hd3, hs3⟩ :=
    read_exact_full os2 g.g_p9_fd f.payload.length f.payload tail hd2 rfl (by omega)
      (no_hard_error_suffix (hs2.trans hs1) h1) (no_early_eof_suffix (hs2.trans hs1) h2)
  have hwr30 : os3.wr = os.wr := hwr3.trans (hwr2.trans hwr1)
  obtain ⟨os4, hr4, hrd4, hm4, hwr4, hd4, hs4⟩ :=
    write_exact_full os3 (g.g_p9_socket_fds f.channel).2 f.payload f.payload.length
      (by omega) (by rw [hwr30]; exact hw)
  have hl1 := hs1.length_le
  have hl2 := hs2.length_le
  have hl3 := hs3.length_le
  refine ⟨os4, (os.rd g.g_p9_fd).sched.length + (os.wr (g.g_p9_socket_fds f.channel).2).sched.length
      + f.payload.length + 3, ?_, by rw [hrd4]; exact hd3,
    by rw [hrd4]; exact hs3.trans (hs2.trans hs1), hm4.trans (hm3.trans (hm2.trans hm1)),
    fun x hx => by rw [hwr4 x hx, hwr30], by rw [hd4, hwr30]; simp,
    by rw [← hwr30]; exact hs4⟩
  intro fuel hfuel
  have hle : le16 [f.payload.length % 256, f.payload.length / 256] = f.payload.length :=
    le16_pair _ (by omega)
  have hcm : f.channel % 256 = f.channel := by omega
  rw [tunnel_loop, hr1 fuel (by omega)]
  simp only [Nat.cast_one, one_ne_zero, if_false, ne_eq, not_true_eq_false]
  rw [hr2 fuel (by omega)]
  simp only [Nat.cast_ofNat, ne_eq, not_true_eq_false, if_false, hle]
  have hnot : ¬ f.payload.length > MAX_PACKET_SIZE := by unfold MAX_PACKET_SIZE; omega
  simp only [hnot, if_false]
  rw [hr3 fuel (by omega)]
  have hneg : ¬ ((f.payload.length : Int) = -1) := by omega
  have hlt : f.channel < MAX_P9_VOLUMES := by unfold MAX_P9_VOLUMES; omega
  simp only [not_true_eq_false, if_false, hneg, List.getD_cons_zero, hcm, hlt, if_true,
    Int.toNat_ofNat]
  rw [hr4 fuel (by rw [hwr30]; omega)]
  simp only [hneg, if_false]

/-- A run of valid frames at the head of the transport is forwarded frame by
frame; the loop then stands at the bytes after them. -/
theorem tunnel_loop_frames (g : Globals) :
    ∀ (fs : List Frame) (os : Os) (tail : List Nat),
      (∀ f ∈ fs, valid_frame f) →
      (os.rd g.g_p9_fd).data = encode_frames fs ++ tail →
      no_hard_error (os.rd g.g_p9_fd).sched → no_early_eof (os.rd g.g_p9_fd).sched →
      (∀ fd, no_hard_error (os.wr fd).sched) →
      ∃ os', (os'.rd g.g_p9_fd).data = tail ∧
        (os'.rd g.g_p9_fd).sched <:+ (os.rd g.g_p9_fd).sched ∧
        os'.mounts = os.mounts ∧
        (∀ fd, (os'.wr fd).data = (os.wr fd).data ++ routed g fd fs) ∧
        (∀ fd, (os'.wr fd).sched <:+ (os.wr fd).sched) ∧
        ∀ R, (∃ N, ∀ fuel, N ≤ fuel → tunnel_loop g fuel os' = some R) →
          ∃ N, ∀ fuel, N ≤ fuel → tunnel_loop g fuel os = some R := by
  intro fs
  induction fs with
  | nil =>
    intro os tail _ hdata _ _ _
    exact ⟨os, by simpa [encode_frames] using hdata, List.suffix_refl _, rfl,
      fun fd => by simp [routed], fun fd => List.suffix_refl _, fun R h => h⟩
  | cons f fs ih =>
    intro os tail hvalid hdata h1 h2 hw
    obtain ⟨os4, N1, hstep, hd4, hs4, hm4, hwr4, hwd4, hws4⟩ :=
      tunnel_loop_frame g os f (encode_frames fs ++ tail) (hvalid f (List.mem_cons_self _ _))
        (by rw [hdata]; simp [encode_frames]) h1 h2 (hw _)
    have hws4' : ∀ fd, (os4.wr fd).sched <:+ (os.wr fd).sched := by
      intro fd
      by_cases hfd : fd = (g.g_p9_socket_fds f.channel).2
      · rw [hfd]; exact hws4
      · rw [hwr4 fd hfd]
    obtain ⟨os', hd', hs', hm', hwd', hws', hrun'⟩ :=
      ih os4 tail (fun x hx => hvalid x (List.mem_cons_of_mem _ hx)) hd4
        (no_hard_error_suffix hs4 h1) (no_early_eof_suffix hs4 h2)
        (fun fd => no_hard_error_suffix (hws4' fd) (hw fd))
    refine ⟨os', hd', hs'.trans hs4, hm'.trans hm4, ?_, fun fd => (hws' fd).trans (hws4' fd), ?_⟩
    · intro fd
      rw [hwd' fd]
      by_cases hfd : fd = (g.g_p9_socket_fds f.channel).2
      · subst hfd
        rw [hwd4]
        simp [routed]
      · rw [hwr4 fd hfd]
        have : ¬ (g.g_p9_socket_fds f.channel).2 = fd := fun h => hfd h.symm
        simp [routed, this]
    · intro R hR
      obtain ⟨N2, hN2⟩ := hrun' R hR
      refine ⟨max N1 N2 + 1, ?_⟩
      intro fuel hfuel
      obtain ⟨k, rfl⟩ : ∃ k, fuel = k + 1 := ⟨fuel - 1, by omega⟩
      rw [hstep k (by omega)]
      exact hN2 k (by omega)

/-- At a drained transport the loop ends with success and writes nothing. -/
theorem tunnel_loop_eof (g : Globals) (os : Os) (hdata : (os.rd g.g_p9_fd).data = [])
    (h1 : no_hard_error (os.rd g.g_p9_fd).sched) :
    ∃ N os', (∀ fuel, N ≤ fuel → tunnel_loop g fuel os = some (Exit.ret 0, os')) ∧
      os'.wr = os.wr ∧ os'.mounts = os.mounts := by
  obtain ⟨got, os1, hr1, hwr1, hm1, -, -⟩ :=
    read_exact_eof os g.g_p9_fd 1 (by omega) (by rw [hdata]; simp) (by omega) h1
  refine ⟨(os.rd g.g_p9_fd).sched.length + 3, os1, ?_, hwr1, hm1⟩
  intro fuel hfuel
  obtain ⟨k, rfl⟩ : ∃ k, fuel = k + 1 := ⟨fuel - 1, by omega⟩
  rw [tunnel_loop, hr1 k (by omega)]
  simp

/-- A header whose length field exceeds `MAX_PACKET_SIZE` ends the loop with the
error result right after the three header bytes. -/
theorem tunnel_loop_oversize (g : Globals) (os : Os) (c lo hi : Nat) (rest : List Nat)
    (hdata : (os.rd g.g_p9_fd).data = c :: lo :: hi :: rest)
    (hbig : MAX_PACKET_SIZE < le16 [lo, hi])
    (h1 : no_hard_error (os.rd g.g_p9_fd).sched) (h2 : no_early_eof (os.rd g.g_p9_fd).sched) :
    ∃ N os', (∀ fuel, N ≤ fuel → tunnel_loop g fuel os = some (Exit.ret (-1), os')) ∧
      os'.wr = os.wr ∧ os'.mounts = os.mounts ∧ (os'.rd g.g_p9_fd).data = rest := by
  obtain ⟨os1, hr1, hwr1, hm1, -, hd1, hs1⟩ :=
    read_exact_full os g.g_p9_fd 1 [c] (lo :: hi :: rest) (by rw [hdata]; simp) rfl
      (by omega) h1 h2
  obtain ⟨os2, hr2, hwr2, hm2, -, hd2, hs2⟩ :=
    read_exact_full os1 g.g_p9_fd 2 [lo, hi] rest (by rw [hd1]; simp) rfl (by omega)
      (no_hard_error_suffix hs1 h1) (no_early_eof_suffix hs1 h2)
  have hl1 := hs1.length_le
  refine ⟨(os.rd g.g_p9_fd).sched.length + 4, os2, ?_, hwr2.trans hwr1, hm2.trans hm1, hd2⟩
  intro fuel hfuel
  obtain ⟨k, rfl⟩ : ∃ k, fuel = k + 1 := ⟨fuel - 1, by omega⟩
  rw [tunnel_loop, hr1 k (by omega)]
  simp only [Nat.cast_one, one_ne_zero, if_false, ne_eq, not_true_eq_false]
  rw [hr2 k (by omega)]
  have hgt : le16 [lo, hi] > MAX_PACKET_SIZE := hbig
  simp only [Nat.cast_ofNat, ne_eq, not_true_eq_false, if_false, hgt, if_true]

/-- A complete frame whose channel byte is `MAX_P9_VOLUMES` or more makes the
loop index `g_p9_socket_fds` outside the table: there is no range check. -/
theorem tunnel_loop_bad_channel (g : Globals) (os : Os) (c lo hi : Nat) (p rest : List Nat)
    (hdata : (os.rd g.g_p9_fd).data = c :: lo :: hi :: (p ++ rest))
    (hlen : le16 [lo, hi] = p.length) (hle : p.length ≤ MAX_PACKET_SIZE)
    (hc : MAX_P9_VOLUMES ≤ c % 256)
    (h1 : no_hard_error (os.rd g.g_p9_fd).sched) (h2 : no_early_eof (os.rd g.g_p9_fd).sched) :
    ∃ N os', (∀ fuel, N ≤ fuel →
        tunnel_loop g fuel os = some (Exit.index_fault (c % 256), os')) ∧
      os'.wr = os.wr := by
  unfold MAX_PACKET_SIZE at hle
  obtain ⟨os1, hr1, hwr1, hm1, -, hd1, hs1⟩ :=
    read_exact_full os g.g_p9_fd 1 [c] (lo :: hi :: (p ++ rest)) (by rw [hdata]; simp) rfl
      (by omega) h1 h2
  obtain ⟨os2, hr2, hwr2, hm2, -, hd2, hs2⟩ :=
    read_exact_full os1 g.g_p9_fd 2 [lo, hi] (p ++ rest) (by rw [hd1]; simp) rfl (by omega)
      (no_hard_error_suffix hs1 h1) (no_early_eof_suffix hs1 h2)
  obtain ⟨os3, hr3, hwr3, hm3, -, hd3, hs3⟩ :=
    read_exact_full os2 g.g_p9_fd p.length p rest hd2 rfl (by omega)
      (no_hard_error_suffix (hs2.trans hs1) h1) (no_early_eof_suffix (hs2.trans hs1) h2)
  have hl1 := hs1.length_le
  have hl2 := hs2.length_le
  refine ⟨(os.rd g.g_p9_fd).sched.length + p.length + 4, os3, ?_,
    hwr3.trans (hwr2.trans hwr1)⟩
  intro fuel hfuel
  obtain ⟨k, rfl⟩ : ∃ k, fuel = k + 1 := ⟨fuel - 1, by omega⟩
  rw [tunnel_loop, hr1 k (by omega)]
  simp only [Nat.cast_one, one_ne_zero, if_false, ne_eq, not_true_eq_false]
  rw [hr2 k (by omega)]
  have hnot : ¬ p.length > MAX_PACKET_SIZE := by unfold MAX_PACKET_SIZE; omega
  simp only [Nat.cast_ofNat, ne_eq, not_true_eq_false, if_false, hlen, hnot]
  rw [hr3 k (by omega)]
  have hneg : ¬ ((p.length : Int) = -1) := by omega
  have hnlt : ¬ c % 256 < MAX_P9_VOLUMES := by omega
  simp only [not_true_eq_false, if_false, hneg, List.getD_cons_zero, hnlt]

/-! ## The outbound handler -/

theorem le_bytes_channel (c : Nat) : (le_bytes 4 c).take 1 = [c % 256] := rfl

theorem le_bytes_length (n : Nat) :
    (le_bytes 2 n).take 2 = [n % 256, n / 256 % 256] := rfl

/-- The handler on a successful non-empty `recv`: when no `write` on the
transport fails hard, the three writes append the frame to the transport. -/
theorem handle_data_frame (g : Globals) (os : Os) (c size : Nat) (p : List Nat)
    (hc : c < MAX_P9_VOLUMES)
    (hret : (sys_read os (g.g_p9_socket_fds c).2 size).ret = p.length)
    (hgot : (sys_read os (g.g_p9_socket_fds c).2 size).got = p)
    (hpos : 1 ≤ p.length) (hmax : p.length ≤ MAX_PACKET_SIZE)
    (hw : no_hard_error (os.wr g.g_p9_fd).sched) :
    ∃ N os', (∀ fuel, N ≤ fuel →
        handle_data_on_channel g fuel os c size = some (Exit.ret (), os')) ∧
      (os'.wr g.g_p9_fd).data =
        (os.wr g.g_p9_fd).data ++ c :: p.length % 256 :: p.length / 256 :: p ∧
      (∀ x, x ≠ g.g_p9_fd → os'.wr x = os.wr x) ∧
      (os'.wr g.g_p9_fd).sched <:+ (os.wr g.g_p9_fd).sched ∧
      os'.rd = (sys_read os (g.g_p9_socket_fds c).2 size).os.rd ∧
      os'.mounts = os.mounts := by
  unfold MAX_PACKET_SIZE at hmax
  obtain ⟨hwr0, hm0, -, -, -, -⟩ := sys_read_spec os (g.g_p9_socket_fds c).2 size
  obtain ⟨os1, hr1, hrd1, hm1, hwr1, hd1, hs1⟩ :=
    write_exact_full (sys_read os (g.g_p9_socket_fds c).2 size).os g.g_p9_fd (le_bytes 4 c) 1
      (by omega) (by rw [hwr0]; exact hw)
  obtain ⟨os2, hr2, hrd2, hm2, hwr2, hd2, hs2⟩ :=
    write_exact_full os1 g.g_p9_fd (le_bytes 2 (p.length % 65536)) 2 (by omega)
      (no_hard_error_suffix hs1 (by rw [hwr0]; exact hw))
  obtain ⟨os3, hr3, hrd3, hm3, hwr3, hd3, hs3⟩ :=
    write_exact_full os2 g.g_p9_fd p p.length (by omega)
      (no_hard_error_suffix (hs2.trans hs1) (by rw [hwr0]; exact hw))
  have hl1 := hs1.length_le
  have hl2 := hs2.length_le
  rw [hwr0] at hl1 hd1 hs1
  refine ⟨(os.wr g.g_p9_fd).sched.length + p.length + 3, os3, ?_, ?_, ?_,
    hs3.trans (hs2.trans hs1), hrd3.trans (hrd2.trans hrd1),
    hm3.trans (hm2.trans (hm1.trans hm0))⟩
  · intro fuel hfuel
    have h0 : ¬ ((p.length : Int) = 0) := by omega
    have hneg : ¬ ((p.length : Int) = -1) := by omega
    have hn1 : ¬ (((1 : Nat) : Int) = -1) := by omega
    have hn2 : ¬ (((2 : Nat) : Int) = -1) := by omega
    unfold handle_data_on_channel
    simp only [hc, if_true, hret, hgot, h0, hneg, if_false, Int.toNat_ofNat]
    rw [hr1 fuel (by rw [hwr0]; omega)]
    simp only [hn1, if_false]
    rw [hr2 fuel (by omega)]
    simp only [hn2, if_false]
    rw [hr3 fuel (by omega)]
  · have hcm : c % 256 = c := by unfold MAX_P9_VOLUMES at hc; omega
    have ha : p.length % 65536 % 256 = p.length % 256 := by omega
    have hb : p.length % 65536 / 256 % 256 = p.length / 256 := by omega
    rw [hd3, hd2, hd1, le_bytes_channel, le_bytes_length, hcm, ha, hb]
    simp
  · intro x hx
    rw [hwr3 x hx, hwr2 x hx, hwr1 x hx, hwr0]

/-- The handler when `recv` returns 0 or -1: it returns at once and leaves every
sink as it was. -/
theorem handle_data_skip (g : Globals) (fuel : Nat) (os : Os) (c size : Nat)
    (hc : c < MAX_P9_VOLUMES)
    (hret : (sys_read os (g.g_p9_socket_fds c).2 size).ret = 0 ∨
      (sys_read os (g.g_p9_socket_fds c).2 size).ret = -1) :
    handle_data_on_channel g fuel os c size =
        some (Exit.ret (), (sys_read os (g.g_p9_socket_fds c).2 size).os) ∧
      (sys_read os (g.g_p9_socket_fds c).2 size).os.wr = os.wr := by
  refine ⟨?_, (sys_read_spec os (g.g_p9_socket_fds c).2 size).1⟩
  unfold handle_data_on_channel
  rcases hret with h | h
  · simp [hc, h]
  · simp [hc, h]

/-! ## The outbound wait loop -/

theorem no_hard_error_nil : no_hard_error [] := by
  intro e h
  simp at h

theorem no_early_eof_nil : no_early_eof [] := by
  simp [no_early_eof]

/-- Valid frames followed by the end of the stream: the loop forwards the
payloads and ends with success. -/
theorem tunnel_loop_frames_eof (g : Globals) (os : Os) (fs : List Frame)
    (hvalid : ∀ f ∈ fs, valid_frame f)
    (hdata : (os.rd g.g_p9_fd).data = encode_frames fs)
    (h1 : no_hard_error (os.rd g.g_p9_fd).sched) (h2 : no_early_eof (os.rd g.g_p9_fd).sched)
    (hw : ∀ fd, no_hard_error (os.wr fd).sched) :
    ∃ N os', (∀ fuel, N ≤ fuel → tunnel_loop g fuel os = some (Exit.ret 0, os')) ∧
      ∀ fd, (os'.wr fd).data = (os.wr fd).data ++ routed g fd fs := by
  obtain ⟨osm, hdm, hsm, -, hwdm, -, hrun⟩ :=
    tunnel_loop_frames g fs os [] hvalid (by simpa using hdata) h1 h2 hw
  obtain ⟨N, os', hend, hwr', -⟩ := tunnel_loop_eof g osm hdm (no_hard_error_suffix hsm h1)
  obtain ⟨N', hN'⟩ := hrun _ ⟨N, hend⟩
  exact ⟨N', os', hN', fun fd => by rw [hwr', hwdm fd]⟩

/-- C1, at the failing input: the transport delivers the frame `100, 1, 0, 65`
(channel byte 100, length 1, payload 65).  The loop does not end with the error
result: it goes on to index `g_p9_socket_fds` with 100, outside the table. -/
theorem bad_channel_frame_indexes_table :
    (tunnel_from_p9_virtio_to_sock g_boot 8 (os_idle.setRd 3 ⟨[100, 1, 0, 65], []⟩) 0).map
      Prod.fst = some (Exit.index_fault 100) := by
  decide

/-- C2: when the transport holds valid frames followed by a header whose 16-bit
length field is greater than `MAX_PACKET_SIZE`, `tunnel_from_p9_virtio_to_sock`
ends with the error result -1; every byte after the three header bytes is still
unread in the transport, and the endpoints have received the payloads of the
earlier frames and nothing else. -/
theorem oversize_length_is_rejected (g : Globals) (os : Os) (fs : List Frame)
    (c lo hi : Nat) (rest : List Nat)
    (hvalid : ∀ f ∈ fs, valid_frame f)
    (hdata : (os.rd g.g_p9_fd).data = encode_frames fs ++ c :: lo :: hi :: rest)
    (hbig : MAX_PACKET_SIZE < le16 [lo, hi])
    (h1 : no_hard_error (os.rd g.g_p9_fd).sched) (h2 : no_early_eof (os.rd g.g_p9_fd).sched)
    (hw : ∀ fd, no_hard_error (os.wr fd).sched) :
    ∃ N os', (∀ fuel, N ≤ fuel →
        tunnel_from_p9_virtio_to_sock g fuel os 0 = some (Exit.ret (-1), os')) ∧
      (os'.rd g.g_p9_fd).data = rest ∧
      ∀ fd, (os'.wr fd).data = (os.wr fd).data ++ routed g fd fs := by
  obtain ⟨osm, hdm, hsm, -, hwdm, -, hrun⟩ :=
    tunnel_loop_frames g fs os (c :: lo :: hi :: rest) hvalid hdata h1 h2 hw
  obtain ⟨N, os', hend, hwr', -, hd'⟩ :=
    tunnel_loop_oversize g osm c lo hi rest hdm hbig (no_hard_error_suffix hsm h1)
      (no_early_eof_suffix hsm h2)
  obtain ⟨N', hN'⟩ := hrun _ ⟨N, hend⟩
  refine ⟨N', os', ?_, hd', fun fd => by rw [hwr', hwdm fd]⟩
  intro fuel hfuel
  simp only [tunnel_from_p9_virtio_to_sock, ne_eq, not_true_eq_false, if_false]
  exact hN' fuel hfuel

theorem oversize_length_is_rejected_witness :
    MAX_PACKET_SIZE < le16 [1, 64] ∧
    ∃ N os', (∀ fuel, N ≤ fuel →
        tunnel_from_p9_virtio_to_sock g_boot fuel
          (os_idle.setRd 3 ⟨[0, 1, 0, 7, 5, 1, 64, 9, 9], [Sys.fail 4, Sys.xfer 2]⟩) 0 =
            some (Exit.ret (-1), os')) ∧
      (os'.rd g_boot.g_p9_fd).data = [9, 9] ∧
      ∀ fd, (os'.wr fd).data =
        ((os_idle.setRd 3 ⟨[0, 1, 0, 7, 5, 1, 64, 9, 9], [Sys.fail 4, Sys.xfer 2]⟩).wr fd).data
          ++ routed g_boot fd [⟨0, [7]⟩] :=
  ⟨by decide,
    oversize_length_is_rejected g_boot
      (os_idle.setRd 3 ⟨[0, 1, 0, 7, 5, 1, 64, 9, 9], [Sys.fail 4, Sys.xfer 2]⟩)
      [⟨0, [7]⟩] 5 1 64 [9, 9]
      (by intro f hf; simp at hf; subst hf; simp [valid_frame, MAX_P9_VOLUMES, MAX_PACKET_SIZE])
      rfl (by decide)
      (by intro e he; simp [Os.setRd, g_boot] at he; simp [he, EINTR])
      (by simp [no_early_eof, Os.setRd, g_boot])
      (fun fd => no_hard_error_nil)⟩

/-- C5: when the transport holds zero or more complete valid frames and then
ends, `tunnel_from_p9_virtio_to_sock` ends with the success result 0, and every
endpoint has received the payloads of the frames of its channel, in order, and
nothing else. -/
theorem clean_shutdown (g : Globals) (os : Os) (fs : List Frame)
    (hvalid : ∀ f ∈ fs, valid_frame f)
    (hdata : (os.rd g.g_p9_fd).data = encode_frames fs)
    (h1 : no_hard_error (os.rd g.g_p9_fd).sched) (h2 : no_early_eof (os.rd g.g_p9_fd).sched)
    (hw : ∀ fd, no_hard_error (os.wr fd).sched) :
    ∃ N os', (∀ fuel, N ≤ fuel →
        tunnel_from_p9_virtio_to_sock g fuel os 0 = some (Exit.ret 0, os')) ∧
      ∀ fd, (os'.wr fd).data = (os.wr fd).data ++ routed g fd fs := by
  obtain ⟨N, os', hrun, hout⟩ := tunnel_loop_frames_eof g os fs hvalid hdata h1 h2 hw
  refine ⟨N, os', ?_, hout⟩
  intro fuel hfuel
  simp only [tunnel_from_p9_virtio_to_sock, ne_eq, not_true_eq_false, if_false]
  exact hrun fuel hfuel

theorem clean_shutdown_witness :
    ∃ N os', (∀ fuel, N ≤ fuel →
        tunnel_from_p9_virtio_to_sock g_boot fuel
          (os_idle.setRd 3 ⟨[0, 2, 0, 7, 8, 1, 1, 0, 9], [Sys.xfer 2, Sys.fail 4]⟩) 0 =
            some (Exit.ret 0, os')) ∧
      ∀ fd, (os'.wr fd).data =
        ((os_idle.setRd 3 ⟨[0, 2, 0, 7, 8, 1, 1, 0, 9], [Sys.xfer 2, Sys.fail 4]⟩).wr fd).data
          ++ routed g_boot fd [⟨0, [7, 8]⟩, ⟨1, [9]⟩] :=
  clean_shutdown g_boot
    (os_idle.setRd 3 ⟨[0, 2, 0, 7, 8, 1, 1, 0, 9], [Sys.xfer 2, Sys.fail 4]⟩)
    [⟨0, [7, 8]⟩, ⟨1, [9]⟩]
    (by
      intro f hf
      simp at hf
      rcases hf with hf | hf <;> subst hf <;>
        simp [valid_frame, MAX_P9_VOLUMES, MAX_PACKET_SIZE])
    rfl
    (by intro e he; simp [Os.setRd, g_boot] at he; simp [he, EINTR])
    (by simp [no_early_eof, Os.setRd, g_boot])
    (fun fd => no_hard_error_nil)

/-- C10: `read_exact` is all-or-nothing.  For a size from 1 to 16384 and any
schedule of `read` outcomes (partial counts, `EINTR`, zero, hard errors) the call
returns, and its result `r` is `size` with the first `size` bytes of the source
in the buffer, or 0 after a `read` that returned 0, or -1 after a `read` that
failed with an `errno` other than `EINTR`; it is never strictly between 0 and
`size`.  In each case the bytes stored followed by the bytes left in the source
are the bytes the source held: retries lose and duplicate nothing. -/
theorem read_exact_all_or_nothing (fuel : Nat) (os : Os) (fd size : Nat)
    (hpos : 1 ≤ size) (hmax : size ≤ MAX_PACKET_SIZE)
    (hfuel : (os.rd fd).sched.length + size + 1 ≤ fuel) :
    ∃ r buf os', read_exact fuel os fd size = some (r, buf, os') ∧
      buf ++ (os'.rd fd).data = (os.rd fd).data ∧
      ((r = size ∧ buf = (os.rd fd).data.take size ∧ buf.length = size) ∨
       (r = 0 ∧ buf.length < size ∧
          (Sys.xfer 0 ∈ (os.rd fd).sched ∨ (os.rd fd).data.length < size)) ∨
       (r = -1 ∧ buf.length < size ∧
          ∃ e, e ≠ EINTR ∧ Sys.fail e ∈ (os.rd fd).sched ∧ os'.errno = e)) ∧
      ¬ (0 < r ∧ r < size) := by
  unfold MAX_PACKET_SIZE at hmax
  obtain ⟨r, got, os', hrun, -, -, -, hd, -, hcase⟩ :=
    read_exact_loop_spec fd fuel os size 0 [] hfuel (le_refl _) (by omega)
  refine ⟨r, got, os', by simpa [read_exact] using hrun, hd, ?_, ?_⟩
  · rcases hcase with ⟨hl, hr⟩ | h | h
    · left
      refine ⟨by simpa using hr, ?_, hl⟩
      rw [← hd, List.take_left' hl]
    · exact Or.inr (Or.inl h)
    · exact Or.inr (Or.inr h)
  · rcases hcase with ⟨hl, hr⟩ | ⟨hr, -⟩ | ⟨hr, -⟩ <;> omega

theorem read_exact_all_or_nothing_witness :
    1 ≤ 4 ∧ 4 ≤ MAX_PACKET_SIZE ∧
    ∃ r buf os',
      read_exact 8 (os_idle.setRd 3 ⟨[1, 2, 3, 4, 5], [Sys.xfer 2, Sys.fail 4, Sys.xfer 1]⟩) 3 4 =
        some (r, buf, os') ∧
      buf ++ (os'.rd 3).data =
        ((os_idle.setRd 3 ⟨[1, 2, 3, 4, 5], [Sys.xfer 2, Sys.fail 4, Sys.xfer 1]⟩).rd 3).data ∧
      ((r = (4 : Nat) ∧
          buf = ((os_idle.setRd 3
            ⟨[1, 2, 3, 4, 5], [Sys.xfer 2, Sys.fail 4, Sys.xfer 1]⟩).rd 3).data.take 4 ∧
          buf.length = 4) ∨
       (r = 0 ∧ buf.length < 4 ∧
          (Sys.xfer 0 ∈ ((os_idle.setRd 3
              ⟨[1, 2, 3, 4, 5], [Sys.xfer 2, Sys.fail 4, Sys.xfer 1]⟩).rd 3).sched ∨
            ((os_idle.setRd 3
              ⟨[1, 2, 3, 4, 5], [Sys.xfer 2, Sys.fail 4, Sys.xfer 1]⟩).rd 3).data.length < 4)) ∨
       (r = -1 ∧ buf.length < 4 ∧
          ∃ e, e ≠ EINTR ∧
            Sys.fail e ∈ ((os_idle.setRd 3
              ⟨[1, 2, 3, 4, 5], [Sys.xfer 2, Sys.fail 4, Sys.xfer 1]⟩).rd 3).sched ∧
            os'.errno = e)) ∧
      ¬ (0 < r ∧ r < (4 : Nat)) :=
  ⟨by decide, by decide,
    read_exact_all_or_nothing 8
      (os_idle.setRd 3 ⟨[1, 2, 3, 4, 5], [Sys.xfer 2, Sys.fail 4, Sys.xfer 1]⟩) 3 4
      (by decide) (by decide) (by decide)⟩

/-- C4: for a channel `c` below 100 whose `recv` delivers the `n` bytes `p`
(`1 ≤ n ≤ 16384`), when no `write` on the transport fails hard,
`handle_data_on_channel` returns and has appended to the transport exactly the
`3 + n` bytes `c`, `n % 256`, `n / 256`, `p`: the channel byte, the length in
little-endian order without truncation, the payload unchanged. -/
theorem handle_data_on_channel_frame (g : Globals) (os : Os) (c size : Nat) (p : List Nat)
    (hc : c < MAX_P9_VOLUMES)
    (hret : (sys_read os (g.g_p9_socket_fds c).2 size).ret = p.length)
    (hgot : (sys_read os (g.g_p9_socket_fds c).2 size).got = p)
    (hpos : 1 ≤ p.length) (hmax : p.length ≤ MAX_PACKET_SIZE)
    (hw : no_hard_error (os.wr g.g_p9_fd).sched) :
    ∃ N os', (∀ fuel, N ≤ fuel →
        handle_data_on_channel g fuel os c size = some (Exit.ret (), os')) ∧
      (os'.wr g.g_p9_fd).data =
        (os.wr g.g_p9_fd).data ++ c :: p.length % 256 :: p.length / 256 :: p ∧
      (c :: p.length % 256 :: p.length / 256 :: p).length = 3 + p.length ∧
      le16 [p.length % 256, p.length / 256] = p.length := by
  obtain ⟨N, os', hrun, hd, -⟩ := handle_data_frame g os c size p hc hret hgot hpos hmax hw
  refine ⟨N, os', hrun, hd, by simp; omega, le16_pair _ ?_⟩
  unfold MAX_PACKET_SIZE at hmax
  omega

theorem handle_data_on_channel_frame_witness :
    ∃ N os', (∀ fuel, N ≤ fuel →
        handle_data_on_channel g_boot fuel (os_idle.setRd 11 ⟨[104, 101, 108, 108, 111], []⟩) 0
          MAX_PACKET_SIZE = some (Exit.ret (), os')) ∧
      (os'.wr 3).data = [0, 5, 0, 104, 101, 108, 108, 111] ∧
      [0, 5, 0, 104, 101, 108, 108, 111].length = 3 + 5 ∧
      le16 [5, 0] = 5 :=
  handle_data_on_channel_frame g_boot (os_idle.setRd 11 ⟨[104, 101, 108, 108, 111], []⟩) 0
    MAX_PACKET_SIZE [104, 101, 108, 108, 111] (by decide) (by decide) (by decide) (by decide)
    (by decide) no_hard_error_nil

/-- C3: round trip.  Let `recv` on the internal endpoint of a channel `c` below
100 deliver the payload `p` of at most 16384 bytes, and let no `write` on the
transport fail hard.  Then `handle_data_on_channel` returns, and when the bytes
`sent` it appended to the transport are the input of
`tunnel_from_p9_virtio_to_sock` (on descriptors without hard errors), that one
ends with success, has appended exactly `p` to the internal endpoint of channel
`c` and has written nothing to any other descriptor. -/
theorem round_trip (g : Globals) (os : Os) (c size : Nat) (p : List Nat)
    (hc : c < MAX_P9_VOLUMES)
    (hret : (sys_read os (g.g_p9_socket_fds c).2 size).ret = p.length)
    (hgot : (sys_read os (g.g_p9_socket_fds c).2 size).got = p)
    (hmax : p.length ≤ MAX_PACKET_SIZE)
    (hw : no_hard_error (os.wr g.g_p9_fd).sched) :
    ∃ N os1 sent, (∀ fuel, N ≤ fuel →
        handle_data_on_channel g fuel os c size = some (Exit.ret (), os1)) ∧
      (os1.wr g.g_p9_fd).data = (os.wr g.g_p9_fd).data ++ sent ∧
      ∀ os2 : Os, (os2.rd g.g_p9_fd).data = sent →
        no_hard_error (os2.rd g.g_p9_fd).sched → no_early_eof (os2.rd g.g_p9_fd).sched →
        (∀ fd, no_hard_error (os2.wr fd).sched) →
        ∃ N2 os3, (∀ fuel, N2 ≤ fuel →
            tunnel_from_p9_virtio_to_sock g fuel os2 0 = some (Exit.ret 0, os3)) ∧
          (os3.wr (g.g_p9_socket_fds c).2).data =
            (os2.wr (g.g_p9_socket_fds c).2).data ++ p ∧
          ∀ fd, fd ≠ (g.g_p9_socket_fds c).2 → (os3.wr fd).data = (os2.wr fd).data := by
  have hback : ∀ (fs : List Frame) (sent : List Nat), encode_frames fs = sent →
      (∀ f ∈ fs, valid_frame f) →
      (∀ fd, routed g fd fs = if (g.g_p9_socket_fds c).2 = fd then p else []) →
      ∀ os2 : Os, (os2.rd g.g_p9_fd).data = sent →
        no_hard_error (os2.rd g.g_p9_fd).sched → no_early_eof (os2.rd g.g_p9_fd).sched →
        (∀ fd, no_hard_error (os2.wr fd).sched) →
        ∃ N2 os3, (∀ fuel, N2 ≤ fuel →
            tunnel_from_p9_virtio_to_sock g fuel os2 0 = some (Exit.ret 0, os3)) ∧
          (os3.wr (g.g_p9_socket_fds c).2).data =
            (os2.wr (g.g_p9_socket_fds c).2).data ++ p ∧
          ∀ fd, fd ≠ (g.g_p9_socket_fds c).2 → (os3.wr fd).data = (os2.wr fd).data := by
    intro fs sent hfs hvalid hrouted os2 hd2 h1 h2 hw2
    obtain ⟨N2, os3, hrun, hout⟩ :=
      tunnel_loop_frames_eof g os2 fs hvalid (by rw [hd2, hfs]) h1 h2 hw2
    refine ⟨N2, os3, ?_, ?_, ?_⟩
    · intro fuel hfuel
      simp only [tunnel_from_p9_virtio_to_sock, ne_eq, not_true_eq_false, if_false]
      exact hrun fuel hfuel
    · rw [hout, hrouted]; simp
    · intro fd hfd
      have : ¬ (g.g_p9_socket_fds c).2 = fd := fun h => hfd h.symm
      rw [hout, hrouted]; simp [this]
  by_cases hp : p.length = 0
  · have hnil : p = [] := List.length_eq_zero.mp hp
    have hr0 : (sys_read os (g.g_p9_socket_fds c).2 size).ret = 0 := by rw [hret, hp]; rfl
    obtain ⟨hrun, hwr⟩ := handle_data_skip g 0 os c size hc (Or.inl hr0)
    refine ⟨0, (sys_read os (g.g_p9_socket_fds c).2 size).os, [], ?_, by rw [hwr]; simp, ?_⟩
    · intro fuel _
      exact (handle_data_skip g fuel os c size hc (Or.inl hr0)).1
    · exact hback [] [] rfl (by simp) (by intro fd; simp [routed, hnil])
  · obtain ⟨N, os1, hrun, hd, -⟩ :=
      handle_data_frame g os c size p hc hret hgot (by omega) hmax hw
    refine ⟨N, os1, c :: p.length % 256 :: p.length / 256 :: p, hrun, hd, ?_⟩
    exact hback [⟨c, p⟩] _ (by simp [encode_frames, encode_frame])
      (by intro f hf; simp at hf; subst hf; exact ⟨hc, hmax⟩)
      (by intro fd; simp [routed])

theorem round_trip_witness :
    ∃ N os1 sent, (∀ fuel, N ≤ fuel →
        handle_data_on_channel g_boot fuel (os_idle.setRd 11 ⟨[104, 105], []⟩) 0
          MAX_PACKET_SIZE = some (Exit.ret (), os1)) ∧
      (os1.wr 3).data = [] ++ sent ∧
      ∀ os2 : Os, (os2.rd 3).data = sent →
        no_hard_error (os2.rd 3).sched → no_early_eof (os2.rd 3).sched →
        (∀ fd, no_hard_error (os2.wr fd).sched) →
        ∃ N2 os3, (∀ fuel, N2 ≤ fuel →
            tunnel_from_p9_virtio_to_sock g_boot fuel os2 0 = some (Exit.ret 0, os3)) ∧
          (os3.wr 11).data = (os2.wr 11).data ++ [104, 105] ∧
          ∀ fd, fd ≠ 11 → (os3.wr fd).data = (os2.wr fd).data :=
  round_trip g_boot (os_idle.setRd 11 ⟨[104, 105], []⟩) 0 MAX_PACKET_SIZE [104, 105]
    (by decide) (by decide) (by decide) (by decide) no_hard_error_nil

theorem do_mount_p9_globals (g : Globals) (os : Os) (tag path : String) (e : Option Nat) :
    (do_mount_p9 g os tag path e).2.1.g_p9_current_channel =
        wrap32 (g.g_p9_current_channel + 1) ∧
      (do_mount_p9 g os tag path e).2.1.g_p9_socket_fds = g.g_p9_socket_fds ∧
      (do_mount_p9 g os tag path e).2.1.g_p9_fd = g.g_p9_fd := by
  unfold do_mount_p9
  dsimp only
  split_ifs
  · exact ⟨rfl, rfl, rfl⟩
  · cases e <;> exact ⟨rfl, rfl, rfl⟩

/-- Every call of `do_mount_p9`, failed or not, moves the cursor on by one. -/
theorem do_mounts_cursor :
    ∀ (calls : List (String × String × Option Nat)) (s : Globals × Os),
      0 ≤ s.1.g_p9_current_channel →
      s.1.g_p9_current_channel + calls.length < 2147483648 →
      (do_mounts calls s).1.g_p9_current_channel = s.1.g_p9_current_channel + calls.length ∧
        (do_mounts calls s).1.g_p9_socket_fds = s.1.g_p9_socket_fds := by
  intro calls
  induction calls with
  | nil => intro s _ _; simp [do_mounts]
  | cons call calls ih =>
    intro s h0 h1
    obtain ⟨tag, path, e⟩ := call
    obtain ⟨hcur, htab, -⟩ := do_mount_p9_globals s.1 s.2 tag path e
    simp only [List.length_cons, Nat.cast_add, Nat.cast_one] at h1
    have hw : wrap32 (s.1.g_p9_current_channel + 1) = s.1.g_p9_current_channel + 1 := by
      apply wrap32_id <;> omega
    rw [hw] at hcur
    obtain ⟨h2, h3⟩ := ih (do_mount_p9 s.1 s.2 tag path e).2 (by rw [hcur]; omega)
      (by rw [hcur]; omega)
    rw [do_mounts]
    refine ⟨?_, h3.trans htab⟩
    rw [h2, hcur]
    simp only [List.length_cons, Nat.cast_add, Nat.cast_one]
    ring

/-- With the cursor from 100 to 255, that is in the calls 101 to 256 since
start-up, the call fails with the capacity error and issues no mount call. -/
theorem do_mount_p9_capacity (g : Globals) (os : Os) (tag path : String) (e : Option Nat)
    (h0 : 100 ≤ g.g_p9_current_channel) (h1 : g.g_p9_current_channel ≤ 255) :
    (do_mount_p9 g os tag path e).1 = to_u32 (-1) ∧ (do_mount_p9 g os tag path e).2.2 = os := by
  have h : to_u8 g.g_p9_current_channel ≥ MAX_P9_VOLUMES := by
    unfold to_u8 MAX_P9_VOLUMES
    omega
  simp [do_mount_p9, h]

/-- C8, at the failing input: after 256 calls since start-up the cursor is 256,
which the `uint8_t` channel truncates to 0.  The 257th call does not fail with
the capacity error: it returns 0 and issues a mount call on the external
endpoint of channel 0, the mount call the first call since start-up issued. -/
theorem channel_zero_is_handed_out_again :
    after_256_mounts.1.g_p9_current_channel = 256 ∧
    (do_mount_p9 after_256_mounts.1 after_256_mounts.2 "vol" "/mnt" none).1 = 0 ∧
    (do_mount_p9 after_256_mounts.1 after_256_mounts.2 "vol" "/mnt" none).2.2.mounts =
      after_256_mounts.2.mounts ++
        [⟨"vol", "/mnt", "9p", 0, mount_cmd (g_boot.g_p9_socket_fds 0).1⟩] ∧
    (do_mount_p9 g_boot os_idle "vol" "/mnt" none).2.2.mounts =
      [⟨"vol", "/mnt", "9p", 0, mount_cmd (g_boot.g_p9_socket_fds 0).1⟩] := by
  have hlen : (List.replicate 256 (("vol", "/mnt", none) : String × String × Option Nat)).length
      = 256 := List.length_replicate _ _
  obtain ⟨hcur, htab⟩ :=
    do_mounts_cursor (List.replicate 256 ("vol", "/mnt", none)) (g_boot, os_idle)
      (le_refl _) (by rw [hlen]; decide)
  have hcur' : after_256_mounts.1.g_p9_current_channel = 256 := by
    rw [after_256_mounts, hcur, hlen]; rfl
  have htab' : after_256_mounts.1.g_p9_socket_fds = g_boot.g_p9_socket_fds := by
    unfold after_256_mounts
    exact htab
  have h8 : to_u8 256 = 0 := by decide
  have h0 : to_u8 g_boot.g_p9_current_channel = 0 := by decide
  refine ⟨hcur', ?_, ?_, ?_⟩
  · simp [do_mount_p9, hcur', h8, MAX_P9_VOLUMES]
  · simp [do_mount_p9, hcur', htab', h8, MAX_P9_VOLUMES]
  · simp [do_mount_p9, h0, MAX_P9_VOLUMES, os_idle]

/-- C9, counterexample: with the cursor at 100 the call fails with the capacity
error `(uint32_t)-1`, and the cursor is 101 afterwards. -/
theorem failed_mount_moves_cursor :
    (do_mount_p9 ⟨3, 100, g_boot.g_p9_socket_fds⟩ os_idle "vol" "/mnt" none).1 = 4294967295 ∧
    (do_mount_p9 ⟨3, 100, g_boot.g_p9_socket_fds⟩ os_idle "vol" "/mnt" none).2.1.g_p9_current_channel
      ≠ (100 : Int) := by
  decide

/-- C9, amended: a `do_mount_p9` call that fails because capacity is exhausted
returns `(uint32_t)-1`, issues no mount call, leaves the kernel state, the table
`g_p9_socket_fds` and `g_p9_fd` as they were, and moves the cursor
`g_p9_current_channel` on by one. -/
theorem failed_mount_effect (g : Globals) (os : Os) (tag path : String) (e : Option Nat)
    (hfull : MAX_P9_VOLUMES ≤ to_u8 g.g_p9_current_channel) :
    (do_mount_p9 g os tag path e).1 = to_u32 (-1) ∧
      (do_mount_p9 g os tag path e).2.2 = os ∧
      (do_mount_p9 g os tag path e).2.1.g_p9_socket_fds = g.g_p9_socket_fds ∧
      (do_mount_p9 g os tag path e).2.1.g_p9_fd = g.g_p9_fd ∧
      (do_mount_p9 g os tag path e).2.1.g_p9_current_channel =
        wrap32 (g.g_p9_current_channel + 1) := by
  have h : to_u8 g.g_p9_current_channel ≥ MAX_P9_VOLUMES := hfull
  simp [do_mount_p9, h]

theorem failed_mount_effect_witness :
    MAX_P9_VOLUMES ≤ to_u8 (100 : Int) ∧
    (do_mount_p9 ⟨3, 100, g_boot.g_p9_socket_fds⟩ os_idle "vol" "/mnt" none).1 = 4294967295 ∧
      (do_mount_p9 ⟨3, 100, g_boot.g_p9_socket_fds⟩ os_idle "vol" "/mnt" none).2.2 = os_idle ∧
      (do_mount_p9 ⟨3, 100, g_boot.g_p9_socket_fds⟩ os_idle "vol" "/mnt" none).2.1.g_p9_socket_fds
        = g_boot.g_p9_socket_fds ∧
      (do_mount_p9 ⟨3, 100, g_boot.g_p9_socket_fds⟩ os_idle "vol" "/mnt" none).2.1.g_p9_fd = 3 ∧
      (do_mount_p9 ⟨3, 100, g_boot.g_p9_socket_fds⟩ os_idle "vol" "/mnt" none).2.1.g_p9_current_channel
        = 101 :=
  ⟨by decide,
    failed_mount_effect ⟨3, 100, g_boot.g_p9_socket_fds⟩ os_idle "vol" "/mnt" none (by decide)⟩

end P9
